import Mathlib

set_option maxRecDepth 8192

/-
Verification of the cache sizing registry in synapse/config/cache.py.

The module keeps three pieces of process-wide state: a registry of
resizable caches (a dict from lowercased cache name to a resize
callback), a mutable default cache factor, and an optional reload
closure installed by the last successful configuration load.  Since a
callback is only ever handed a numeric factor, a callback invocation is
modelled as the pair of the cache name and the factor delivered to it,
and the registry as the list of registered (lowercased) names in dict
insertion order.  The installed reload closure is modelled by the data
it closes over: the resolved global factor and per-cache factor map.

Parsed configuration data (YAML already turned into Python objects by
the external loader) is modelled by the Value type below; Python dicts
are association lists with unique keys, in insertion order, with the
dict operations (get, update, item iteration) translated to preserve
that order, since the final per-cache loop relies on it.
-/

/-- A parsed configuration value, mirroring the Python objects the
external YAML loader can hand to read_config: ints, floats (modelled as
rationals), bools, strings, sequences, mappings and None. -/
inductive Value where
  | vInt : Int → Value
  | vFloat : ℚ → Value
  | vBool : Bool → Value
  | vStr : String → Value
  | vList : List Value → Value
  | vDict : List (String × Value) → Value
  | vNull : Value

/-- Errors a call to read_config can surface: ConfigError with its
message, the ValueError raised by float() on a malformed environment
value, and the AttributeError raised when the caches section is a
non-mapping value (calling .get on it). -/
inductive LoadErr where
  | configError : String → LoadErr
  | valueError : LoadErr
  | attributeError : LoadErr

/-- Python isinstance(x, (int, float)): true for ints, floats and bools
(bool is a subclass of int in Python). -/
def isNumber : Value → Bool
  | Value.vInt _ => true
  | Value.vFloat _ => true
  | Value.vBool _ => true
  | _ => false

/-- Python truthiness of a parsed configuration value, as used by the
expression (cache_config.get("per_cache_factors", ...) or ...). -/
def truthy : Value → Bool
  | Value.vInt n => n ≠ 0
  | Value.vFloat q => q ≠ 0
  | Value.vBool b => b
  | Value.vStr s => s ≠ ""
  | Value.vList xs => !xs.isEmpty
  | Value.vDict xs => !xs.isEmpty
  | Value.vNull => false

/-- Whether a value is a Python dict, as tested by isinstance(x, dict). -/
def Value.isDict : Value → Bool
  | Value.vDict _ => true
  | _ => false

/-- Python str.lower() on one character, for the ASCII range the cache
names use: uppercase A-Z is shifted down by 32, all else unchanged. -/
def lowerChar (c : Char) : Char :=
  if 65 ≤ c.toNat ∧ c.toNat ≤ 90 then Char.ofNat (c.toNat + 32) else c

/-- Python str.lower() on an ASCII string. -/
def lowerStr (s : String) : String :=
  String.mk (s.data.map lowerChar)

/-- Python key.startswith(pre), on strings as code-point sequences. -/
def strStartsWith (s pre : String) : Bool :=
  pre.data.isPrefixOf s.data

/-- Python key[n:], the slice dropping the first n code points. -/
def strDrop (s : String) (n : Nat) : String :=
  String.mk (s.data.drop n)

/-- Lookup in a Python dict modelled as an association list: the first
entry with the key (keys are unique in a real dict). -/
def assocGet {α : Type} : List (String × α) → String → Option α
  | [], _ => none
  | (k, v) :: rest, key => if k = key then some v else assocGet rest key

/-- Python d[k] = v on a dict in insertion order: replace the value in
place if the key is present, else append the new entry at the end. -/
def assocSet {α : Type} : List (String × α) → String → α → List (String × α)
  | [], key, v => [(key, v)]
  | (k, w) :: rest, key, v =>
    if k = key then (key, v) :: rest else (k, w) :: assocSet rest key v

/-- Python d.get(k, default). -/
def dictGetD (d : List (String × Value)) (key : String) (dflt : Value) : Value :=
  match assocGet d key with
  | some v => v
  | none => dflt

/-- Python d.update(other): fold the entries of other into d in order,
replacing in place on an exact key match and appending otherwise. -/
def dictUpdate : List (String × Value) → List (String × Value) → List (String × Value)
  | d, [] => d
  | d, (k, v) :: rest => dictUpdate (assocSet d k v) rest

/-- Value of a decimal digit string. -/
def digitsToNat (cs : List Char) : Nat :=
  cs.foldl (fun a c => a * 10 + (c.toNat - 48)) 0

/-- Python float(s) restricted to the decimal literals that appear as
cache-factor environment values: an optional sign, digits, and an
optional fractional part.  Other inputs fail (ValueError). -/
def floatOfString (s : String) : Option ℚ :=
  let afterSign : List Char × Bool :=
    match s.data with
    | '-' :: rest => (rest, true)
    | '+' :: rest => (rest, false)
    | cs => (cs, false)
  let cs := afterSign.1
  let intPart := cs.takeWhile Char.isDigit
  let rest := cs.dropWhile Char.isDigit
  let mag : Option ℚ :=
    match rest with
    | [] => if intPart.isEmpty then none else some (digitsToNat intPart : ℚ)
    | '.' :: frac =>
      if frac.all Char.isDigit && !(intPart.isEmpty && frac.isEmpty) then
        some ((digitsToNat intPart : ℚ) + (digitsToNat frac : ℚ) / ((10 : ℚ) ^ frac.length))
      else none
    | _ => none
  match mag with
  | none => none
  | some m => some (if afterSign.2 then -m else m)

/-- The environment variable stem used for cache factors, the value of
the module constant holding the string SYNAPSE_CACHE_FACTOR. -/
def CACHE_PREFIX_NAME : String := "SYNAPSE_CACHE_FACTOR"

/-- The data the reload closure ensure_cache_sizes closes over: the
per-cache factor dict self.cache_factors (lowercased keys) and the
resolved self.global_factor. -/
structure SizingConfig where
  cache_factors : List (String × Value)
  global_factor : Value

/-- The process-wide mutable state of the module: the registered cache
names (lowercased, in registration order, standing for the keys of
_CACHES), DEFAULT_CACHE_SIZE_FACTOR, and the data captured by the
installed _ENSURE_CORRECT_CACHE_SIZING closure (none before the first
successful load). -/
structure CacheState where
  caches : List String
  defaultFactor : Value
  ensureSizing : Option SizingConfig

/-- Registering a name in _CACHES: overwriting an existing entry keeps
its position, a new name is appended. -/
def registerName (xs : List String) (n : String) : List String :=
  if xs.contains n then xs else xs ++ [n]

/-- The body of ensure_cache_sizes: one callback invocation per
registered cache, in registry order, delivering
self.cache_factors.get(cache_name, self.global_factor). -/
def ensure_cache_sizes (sc : SizingConfig) (caches : List String) : List (String × Value) :=
  caches.map (fun cache_name =>
    (cache_name, (assocGet sc.cache_factors cache_name).getD sc.global_factor))

/-- add_resizable_cache(cache_name, cache_resize_callback): store the
callback under the lowercased name, then, if a reload closure is
installed, invoke it synchronously; returns the new state and the
callback invocations made. -/
def add_resizable_cache (st : CacheState) (cache_name : String) :
    CacheState × List (String × Value) :=
  let caches2 := registerName st.caches (lowerStr cache_name)
  let st2 : CacheState := { st with caches := caches2 }
  match st.ensureSizing with
  | some sc => (st2, ensure_cache_sizes sc caches2)
  | none => (st2, [])

/-- The dict comprehension building individual_factors from the
environment: keep variables starting with the prefix plus underscore,
strip the prefix, lowercase the rest, and parse the value with float();
a malformed value raises ValueError. -/
def envFactorsAux : List (String × Value) → List (String × String) →
    Except LoadErr (List (String × Value))
  | acc, [] => Except.ok acc
  | acc, (key, v) :: rest =>
    if strStartsWith key (CACHE_PREFIX_NAME ++ "_") then
      match floatOfString v with
      | some q =>
        envFactorsAux
          (assocSet acc (lowerStr (strDrop key (CACHE_PREFIX_NAME.length + 1))) (Value.vFloat q))
          rest
      | none => Except.error LoadErr.valueError
    else envFactorsAux acc rest

/-- Environment-sourced per-cache factors, from an empty dict. -/
def envFactors (environ : List (String × String)) : Except LoadErr (List (String × Value)) :=
  envFactorsAux [] environ

/-- The loop over individual_factors.items() building self.cache_factors:
each non-numeric value aborts with a ConfigError naming the lowercased
cache, each numeric one is stored under the lowercased key. -/
def buildCacheFactorsAux : List (String × Value) → List (String × Value) →
    Except String (List (String × Value))
  | acc, [] => Except.ok acc
  | acc, (cache, factor) :: rest =>
    if isNumber factor then buildCacheFactorsAux (assocSet acc (lowerStr cache) factor) rest
    else Except.error ("caches.per_cache_factors." ++ lowerStr cache ++ " must be a number")

/-- CacheConfig.read_config(config), with the parsed config mapping and
the environment passed explicitly.  Returns the state after the call
(even when it raises, capturing the partial mutation of the default
factor) together with either the error raised or the resolved sizing
data and the callback invocations made by the final call to the freshly
installed ensure_cache_sizes.  The event_cache_size line delegates to an
external size parser and plays no part in the sizing algorithm, so it is
not modelled. -/
def read_config (st : CacheState) (config : List (String × Value))
    (environ : List (String × String)) :
    CacheState × Except LoadErr (SizingConfig × List (String × Value)) :=
  match dictGetD config "caches" (Value.vDict []) with
  | Value.vDict cache_config =>
    let global_factor := dictGetD cache_config "global_factor" st.defaultFactor
    if isNumber global_factor then
      let st1 : CacheState := { st with defaultFactor := global_factor }
      match envFactors environ with
      | Except.error e => (st1, Except.error e)
      | Except.ok individual_factors =>
        let raw := dictGetD cache_config "per_cache_factors" (Value.vDict [])
        match (if truthy raw then raw else Value.vDict []) with
        | Value.vDict individual_factors_config =>
          match buildCacheFactorsAux [] (dictUpdate individual_factors individual_factors_config) with
          | Except.error msg => (st1, Except.error (LoadErr.configError msg))
          | Except.ok cache_factors =>
            let sc : SizingConfig := ⟨cache_factors, global_factor⟩
            let st2 : CacheState := { st1 with ensureSizing := some sc }
            (st2, Except.ok (sc, ensure_cache_sizes sc st2.caches))
        | _ =>
          (st1, Except.error (LoadErr.configError "caches.per_cache_factors must be a dictionary"))
    else
      (st, Except.error (LoadErr.configError "caches.global_factor must be a number."))
  | _ => (st, Except.error LoadErr.attributeError)

/-- The module-level seeding of DEFAULT_CACHE_SIZE_FACTOR, also redone
by CacheConfig._reset: float(os.environ.get(SYNAPSE_CACHE_FACTOR, 0.5)). -/
def envDefaultFactor (environ : List (String × String)) : Except LoadErr ℚ :=
  match assocGet environ CACHE_PREFIX_NAME with
  | none => Except.ok ((1 : ℚ) / 2)
  | some s =>
    match floatOfString s with
    | some q => Except.ok q
    | none => Except.error LoadErr.valueError

/-- CacheConfig._reset(): clear the registry, drop the installed reload
closure and re-derive the default factor from the environment. -/
def reset_state (environ : List (String × String)) : Except LoadErr CacheState :=
  (envDefaultFactor environ).map (fun q => ⟨[], Value.vFloat q, none⟩)

/-- An external interaction with the module: a cache registering itself,
or a configuration load. -/
inductive Event where
  | register : String → Event
  | load : List (String × Value) → List (String × String) → Event

/-- One interaction, returning the new state and the callback
invocations it caused (a load that raises causes none: the only call
site of the reload closure is past every validation). -/
def step (st : CacheState) : Event → CacheState × List (String × Value)
  | Event.register n => add_resizable_cache st n
  | Event.load cfg env =>
    match read_config st cfg env with
    | (st2, Except.ok (_, calls)) => (st2, calls)
    | (st2, Except.error _) => (st2, [])

/-- A sequence of interactions, collecting every callback invocation. -/
def run : CacheState → List Event → CacheState × List (String × Value)
  | st, [] => (st, [])
  | st, e :: es =>
    ((run (step st e).1 es).1, (step st e).2 ++ (run (step st e).1 es).2)

/-- Whether an event is a load that completes without raising. -/
def loadSucceeded (st : CacheState) : Event → Bool
  | Event.register _ => false
  | Event.load cfg env =>
    match (read_config st cfg env).2 with
    | Except.ok _ => true
    | Except.error _ => false

/-- No event of the sequence is a successful load, judged against the
state each event actually runs in. -/
def noSuccessfulLoad (st : CacheState) : List Event → Bool
  | [] => true
  | e :: es => !loadSucceeded st e && noSuccessfulLoad (step st e).1 es

/-- Last value among the entries of a list whose lowercased key is the
given (already lowercased) name: what the final lowercasing loop over
individual_factors.items() ends up storing for that name. -/
def lastVal : List (String × Value) → String → Option Value
  | [], _ => none
  | (k, v) :: rest, key =>
    match lastVal rest key with
    | some w => some w
    | none => if lowerStr k = key then some v else none

/-- The pure fold the cache-factor loop performs when every value is
numeric. -/
def foldLower : List (String × Value) → List (String × Value) → List (String × Value)
  | acc, [] => acc
  | acc, (k, v) :: rest => foldLower (assocSet acc (lowerStr k) v) rest

theorem assocGet_assocSet {α : Type} (acc : List (String × α)) (k key : String) (v : α) :
    assocGet (assocSet acc k v) key = if k = key then some v else assocGet acc key := by
  induction acc with
  | nil => simp [assocGet, assocSet]
  | cons hd tl ih =>
    obtain ⟨k1, v1⟩ := hd
    by_cases h1 : k1 = k
    · subst h1
      simp only [assocSet, if_pos rfl, assocGet]
      by_cases h2 : k1 = key <;> simp [assocGet, h2]
    · simp only [assocSet, if_neg h1, assocGet]
      by_cases h2 : k1 = key
      · subst h2
        have hk : ¬ k = k1 := fun h => h1 h.symm
        simp [hk]
      · rw [if_neg h2, ih, if_neg h2]

theorem mem_assocSet {α : Type} (acc : List (String × α)) (k key : String) (v w : α)
    (h : (key, w) ∈ assocSet acc k v) : (key, w) ∈ acc ∨ (key, w) = (k, v) := by
  induction acc with
  | nil => simpa [assocSet] using h
  | cons hd tl ih =>
    obtain ⟨k1, v1⟩ := hd
    by_cases h1 : k1 = k
    · subst h1
      simp only [assocSet, if_pos rfl] at h
      rcases List.mem_cons.mp h with h2 | h2
      · exact Or.inr h2
      · exact Or.inl (List.mem_cons_of_mem _ h2)
    · simp only [assocSet, if_neg h1] at h
      rcases List.mem_cons.mp h with h2 | h2
      · exact Or.inl (h2 ▸ List.mem_cons_self _ _)
      · rcases ih h2 with h3 | h3
        · exact Or.inl (List.mem_cons_of_mem _ h3)
        · exact Or.inr h3

theorem self_mem_assocSet {α : Type} (acc : List (String × α)) (k : String) (v : α) :
    (k, v) ∈ assocSet acc k v := by
  induction acc with
  | nil => simp [assocSet]
  | cons hd tl ih =>
    obtain ⟨k1, v1⟩ := hd
    by_cases h1 : k1 = k
    · simp [assocSet, h1]
    · simp only [assocSet, if_neg h1]
      exact List.mem_cons_of_mem _ ih

theorem mem_assocSet_of_ne {α : Type} (acc : List (String × α)) (k key : String) (v w : α)
    (hmem : (key, w) ∈ acc) (hne : key ≠ k) : (key, w) ∈ assocSet acc k v := by
  induction acc with
  | nil => cases hmem
  | cons hd tl ih =>
    obtain ⟨k1, v1⟩ := hd
    rcases List.mem_cons.mp hmem with h2 | h2
    · have hk1 : k1 ≠ k := by
        intro hh
        apply hne
        have ha : key = k1 := congrArg Prod.fst h2
        exact ha.trans hh
      simp only [assocSet, if_neg hk1]
      exact h2 ▸ List.mem_cons_self _ _
    · by_cases h1 : k1 = k
      · simp only [assocSet, if_pos h1]
        exact List.mem_cons_of_mem _ h2
      · simp only [assocSet, if_neg h1]
        exact List.mem_cons_of_mem _ (ih h2)

theorem mem_keys_assocSet {α : Type} (acc : List (String × α)) (k key : String) (v : α)
    (h : key ∈ (assocSet acc k v).map Prod.fst) :
    key ∈ acc.map Prod.fst ∨ key = k := by
  rcases List.mem_map.mp h with ⟨kv, hkv, hfst⟩
  obtain ⟨k2, v2⟩ := kv
  rcases mem_assocSet acc k k2 v v2 hkv with h2 | h2
  · exact Or.inl (hfst ▸ List.mem_map_of_mem Prod.fst h2)
  · right
    have h3 : k2 = k := congrArg Prod.fst h2
    rw [← hfst]
    exact h3

theorem nodup_keys_assocSet {α : Type} (acc : List (String × α)) (k : String) (v : α)
    (h : (acc.map Prod.fst).Nodup) : ((assocSet acc k v).map Prod.fst).Nodup := by
  induction acc with
  | nil => simp [assocSet]
  | cons hd tl ih =>
    obtain ⟨k1, v1⟩ := hd
    simp only [List.map_cons, List.nodup_cons] at h
    by_cases h1 : k1 = k
    · subst h1
      simpa [assocSet, List.nodup_cons] using h
    · simp only [assocSet, if_neg h1, List.map_cons, List.nodup_cons]
      refine ⟨fun hmem => ?_, ih h.2⟩
      rcases mem_keys_assocSet tl k k1 v hmem with h2 | h2
      · exact h.1 h2
      · exact h1 h2

theorem assocSet_of_not_mem {α : Type} (acc : List (String × α)) (k : String) (v : α)
    (h : k ∉ acc.map Prod.fst) : assocSet acc k v = acc ++ [(k, v)] := by
  induction acc with
  | nil => simp [assocSet]
  | cons hd tl ih =>
    obtain ⟨k1, v1⟩ := hd
    simp only [List.map_cons, List.mem_cons] at h
    push_neg at h
    have hne : k1 ≠ k := fun h2 => h.1 h2.symm
    simp only [assocSet, if_neg hne, List.cons_append]
    rw [ih h.2]

theorem lowerChar_idem (c : Char) : lowerChar (lowerChar c) = lowerChar c := by
  by_cases h : 65 ≤ c.toNat ∧ c.toNat ≤ 90
  · have h1 := h.1
    have h2 := h.2
    unfold lowerChar
    rw [if_pos h]
    generalize c.toNat = n at h1 h2
    interval_cases n <;> decide
  · simp only [lowerChar, if_neg h]

theorem lowerStr_idem (s : String) : lowerStr (lowerStr s) = lowerStr s := by
  unfold lowerStr
  refine congrArg String.mk ?_
  show (s.data.map lowerChar).map lowerChar = s.data.map lowerChar
  rw [List.map_map]
  exact List.map_congr_left (fun a _ => lowerChar_idem a)

theorem lastVal_append (xs ys : List (String × Value)) (key : String) :
    lastVal (xs ++ ys) key =
      match lastVal ys key with
      | some w => some w
      | none => lastVal xs key := by
  induction xs with
  | nil =>
    simp only [List.nil_append]
    cases h : lastVal ys key <;> simp [lastVal]
  | cons hd tl ih =>
    obtain ⟨k, v⟩ := hd
    simp only [List.cons_append, lastVal, List.append_eq]
    rw [ih]
    cases h1 : lastVal ys key <;> cases h2 : lastVal tl key <;> simp [h1, h2]

theorem lastVal_eq_none (xs : List (String × Value)) (key : String)
    (h : ∀ kv ∈ xs, lowerStr kv.1 ≠ key) : lastVal xs key = none := by
  induction xs with
  | nil => rfl
  | cons hd tl ih =>
    obtain ⟨k, v⟩ := hd
    simp only [lastVal]
    rw [ih (fun kv hkv => h kv (List.mem_cons_of_mem _ hkv))]
    simp [h (k, v) (List.mem_cons_self _ _)]

theorem lastVal_assocSet_ne (env : List (String × Value)) (k key : String) (v : Value)
    (h : lowerStr k ≠ key) : lastVal (assocSet env k v) key = lastVal env key := by
  induction env with
  | nil => simp [assocSet, lastVal, h]
  | cons hd tl ih =>
    obtain ⟨k1, v1⟩ := hd
    by_cases h1 : k1 = k
    · subst h1
      simp only [assocSet, if_pos rfl, lastVal]
      cases lastVal tl key <;> simp [h]
    · simp only [assocSet, if_neg h1, lastVal, ih]

theorem lastVal_assocSet_append (env : List (String × Value)) (k : String) (v : Value)
    (h : k ∉ env.map Prod.fst) :
    lastVal (assocSet env k v) (lowerStr k) = some v := by
  rw [assocSet_of_not_mem env k v h, lastVal_append]
  simp [lastVal]

theorem lastVal_assocSet_mem (env : List (String × Value)) (k : String) (v : Value)
    (hnd : (env.map Prod.fst).Nodup) (hkn : lowerStr k = k)
    (hall : ∀ kv ∈ env, lowerStr kv.1 = k → kv.1 = k) :
    lastVal (assocSet env k v) k = some v := by
  induction env with
  | nil => simp [assocSet, lastVal, hkn]
  | cons hd tl ih =>
    obtain ⟨k1, v1⟩ := hd
    simp only [List.map_cons, List.nodup_cons] at hnd
    by_cases h1 : k1 = k
    · simp only [assocSet, if_pos h1, lastVal]
      have hrest : lastVal tl k = none := by
        apply lastVal_eq_none
        intro kv hkv hcon
        have hk1 : kv.1 = k := hall kv (List.mem_cons_of_mem _ hkv) hcon
        apply hnd.1
        have hmm : kv.1 ∈ List.map Prod.fst tl := List.mem_map_of_mem Prod.fst hkv
        rw [hk1, ← h1] at hmm
        exact hmm
      rw [hrest]
      simp [hkn]
    · simp only [assocSet, if_neg h1, lastVal]
      rw [ih hnd.2 (fun kv hkv => hall kv (List.mem_cons_of_mem _ hkv))]

theorem lastVal_dictUpdate_ne (env fs : List (String × Value)) (key : String)
    (h : ∀ kv ∈ fs, lowerStr kv.1 ≠ key) :
    lastVal (dictUpdate env fs) key = lastVal env key := by
  induction fs generalizing env with
  | nil => rfl
  | cons hd tl ih =>
    obtain ⟨k, v⟩ := hd
    simp only [dictUpdate]
    rw [ih _ (fun kv hkv => h kv (List.mem_cons_of_mem _ hkv)),
      lastVal_assocSet_ne env k key v (h (k, v) (List.mem_cons_self _ _))]

theorem lastVal_dictUpdate_mem (fs : List (String × Value)) (env : List (String × Value))
    (k : String) (v : Value)
    (hnd : (env.map Prod.fst).Nodup)
    (hinv : ∀ kv ∈ env,
      lowerStr kv.1 = kv.1 ∨ lowerStr kv.1 ∉ fs.map (fun kv2 => lowerStr kv2.1))
    (hmem : (k, v) ∈ fs)
    (hfs : (fs.map (fun kv2 => lowerStr kv2.1)).Nodup) :
    lastVal (dictUpdate env fs) (lowerStr k) = some v := by
  induction fs generalizing env with
  | nil => cases hmem
  | cons hd tl ih =>
    obtain ⟨k0, v0⟩ := hd
    simp only [List.map_cons, List.nodup_cons] at hfs
    simp only [dictUpdate]
    rcases List.mem_cons.mp hmem with h0 | h0
    · injection h0 with hk hv
      subst hk
      subst hv
      rw [lastVal_dictUpdate_ne _ tl _
        (fun kv hkv hcon => hfs.1 (by rw [← hcon]; exact List.mem_map_of_mem _ hkv))]
      by_cases hkn : lowerStr k = k
      · rw [hkn]
        apply lastVal_assocSet_mem env k v hnd hkn
        intro kv hkv hlow
        rcases hinv kv (by exact hkv) with hn | hnot
        · rw [← hn, hlow]
        · exfalso
          apply hnot
          simp only [List.map_cons]
          exact List.mem_cons.mpr (Or.inl (hlow.trans hkn.symm))
      · apply lastVal_assocSet_append env k v
        intro hcon
        rcases List.mem_map.mp hcon with ⟨kv, hkv, hfst⟩
        rcases hinv kv hkv with hn | hnot
        · exact hkn (by rw [hfst] at hn; exact hn)
        · apply hnot
          rw [hfst]
          exact List.mem_cons_self _ _
    · apply ih _ (nodup_keys_assocSet env k0 v0 hnd) ?_ h0 hfs.2
      intro kv hkv
      obtain ⟨kk, vv⟩ := kv
      rcases mem_assocSet env k0 kk v0 vv hkv with h2 | h2
      · rcases hinv (kk, vv) h2 with hn | hnot
        · exact Or.inl hn
        · refine Or.inr (fun hmem2 => hnot ?_)
          exact List.mem_cons_of_mem _ hmem2
      · have hk2 : kk = k0 := congrArg Prod.fst h2
        refine Or.inr ?_
        rw [hk2]
        exact hfs.1

theorem assocGet_foldLower_of_none (xs : List (String × Value)) (acc : List (String × Value))
    (key : String) (h : lastVal xs key = none) :
    assocGet (foldLower acc xs) key = assocGet acc key := by
  induction xs generalizing acc with
  | nil => rfl
  | cons hd tl ih =>
    obtain ⟨k, v⟩ := hd
    simp only [lastVal] at h
    rcases htl : lastVal tl key with _ | w
    · rw [htl] at h
      have hne : lowerStr k ≠ key := by
        intro hcon
        rw [if_pos hcon] at h
        cases h
      simp only [foldLower]
      rw [ih _ htl, assocGet_assocSet, if_neg hne]
    · rw [htl] at h
      cases h

theorem assocGet_foldLower_of_some (xs : List (String × Value)) (acc : List (String × Value))
    (key : String) (v : Value) (h : lastVal xs key = some v) :
    assocGet (foldLower acc xs) key = some v := by
  induction xs generalizing acc with
  | nil => cases h
  | cons hd tl ih =>
    obtain ⟨k, w⟩ := hd
    simp only [lastVal] at h
    rcases htl : lastVal tl key with _ | u
    · rw [htl] at h
      by_cases hk : lowerStr k = key
      · rw [if_pos hk] at h
        injection h with hw
        simp only [foldLower]
        rw [assocGet_foldLower_of_none tl _ key htl, assocGet_assocSet, if_pos hk, hw]
      · rw [if_neg hk] at h
        cases h
    · rw [htl] at h
      injection h with hu
      simp only [foldLower]
      exact ih _ (hu ▸ htl)

theorem buildCacheFactorsAux_ok (xs acc cfs : List (String × Value))
    (h : buildCacheFactorsAux acc xs = Except.ok cfs) : cfs = foldLower acc xs := by
  induction xs generalizing acc with
  | nil =>
    simp only [buildCacheFactorsAux] at h
    injection h with h2
    exact h2.symm
  | cons hd tl ih =>
    obtain ⟨c, f⟩ := hd
    simp only [buildCacheFactorsAux] at h
    by_cases hn : isNumber f = true
    · rw [if_pos hn] at h
      exact ih _ h
    · rw [if_neg hn] at h
      cases h

theorem buildCacheFactorsAux_bad (xs acc : List (String × Value))
    (h : ∃ kv ∈ xs, isNumber kv.2 = false) :
    ∃ k v, (k, v) ∈ xs ∧ isNumber v = false ∧
      buildCacheFactorsAux acc xs =
        Except.error ("caches.per_cache_factors." ++ lowerStr k ++ " must be a number") := by
  induction xs generalizing acc with
  | nil =>
    obtain ⟨kv, hkv, _⟩ := h
    cases hkv
  | cons hd tl ih =>
    obtain ⟨c, f⟩ := hd
    by_cases hn : isNumber f = true
    · have htl : ∃ kv ∈ tl, isNumber kv.2 = false := by
        obtain ⟨kv, hkv, hbad⟩ := h
        rcases List.mem_cons.mp hkv with h1 | h1
        · rw [h1] at hbad
          simp only at hbad
          rw [hn] at hbad
          cases hbad
        · exact ⟨kv, h1, hbad⟩
      obtain ⟨k, v, hmem, hbad, heq⟩ := ih (assocSet acc (lowerStr c) f) htl
      refine ⟨k, v, List.mem_cons_of_mem _ hmem, hbad, ?_⟩
      simp only [buildCacheFactorsAux, if_pos hn]
      exact heq
    · refine ⟨c, f, List.mem_cons_self _ _, by simpa using hn, ?_⟩
      simp only [buildCacheFactorsAux, if_neg hn]

theorem envFactorsAux_inv (environ : List (String × String)) (acc em : List (String × Value))
    (hacc : ∀ kv ∈ acc, lowerStr kv.1 = kv.1 ∧ ∃ q, kv.2 = Value.vFloat q)
    (hnd : (acc.map Prod.fst).Nodup)
    (h : envFactorsAux acc environ = Except.ok em) :
    (∀ kv ∈ em, lowerStr kv.1 = kv.1 ∧ ∃ q, kv.2 = Value.vFloat q) ∧
      (em.map Prod.fst).Nodup := by
  induction environ generalizing acc with
  | nil =>
    simp only [envFactorsAux] at h
    injection h with h2
    subst h2
    exact ⟨hacc, hnd⟩
  | cons hd tl ih =>
    obtain ⟨key, v⟩ := hd
    simp only [envFactorsAux] at h
    by_cases hs : strStartsWith key (CACHE_PREFIX_NAME ++ "_") = true
    · rw [if_pos hs] at h
      rcases hf : floatOfString v with _ | q
      · simp only [hf] at h
        cases h
      · simp only [hf] at h
        refine ih _ ?_ (nodup_keys_assocSet _ _ _ hnd) h
        intro kv hkv
        obtain ⟨kk, vv⟩ := kv
        rcases mem_assocSet acc _ kk _ vv hkv with h2 | h2
        · exact hacc _ h2
        · have hk : kk = lowerStr (strDrop key (CACHE_PREFIX_NAME.length + 1)) :=
            congrArg Prod.fst h2
          have hv : vv = Value.vFloat q := congrArg Prod.snd h2
          constructor
          · rw [hk]
            exact lowerStr_idem _
          · exact ⟨q, hv⟩
    · rw [if_neg hs] at h
      exact ih _ hacc hnd h

theorem read_config_ok (st st' : CacheState) (cfg : List (String × Value))
    (env : List (String × String)) (sc : SizingConfig) (calls : List (String × Value))
    (h : read_config st cfg env = (st', Except.ok (sc, calls))) :
    ∃ cc em fs,
      dictGetD cfg "caches" (Value.vDict []) = Value.vDict cc ∧
      envFactors env = Except.ok em ∧
      sc.global_factor = dictGetD cc "global_factor" st.defaultFactor ∧
      isNumber sc.global_factor = true ∧
      (if truthy (dictGetD cc "per_cache_factors" (Value.vDict [])) then
          dictGetD cc "per_cache_factors" (Value.vDict [])
        else Value.vDict []) = Value.vDict fs ∧
      buildCacheFactorsAux [] (dictUpdate em fs) = Except.ok sc.cache_factors ∧
      st' = { st with defaultFactor := sc.global_factor, ensureSizing := some sc } ∧
      calls = ensure_cache_sizes sc st.caches := by
  simp only [read_config] at h
  cases hcc : dictGetD cfg "caches" (Value.vDict []) <;> simp only [hcc] at h
  case vDict cc =>
    by_cases hnum : isNumber (dictGetD cc "global_factor" st.defaultFactor) = true
    · simp only [if_pos hnum] at h
      rcases henv : envFactors env with e2 | em <;> simp only [henv] at h
      · simp at h
      cases hfs : (if truthy (dictGetD cc "per_cache_factors" (Value.vDict [])) then
          dictGetD cc "per_cache_factors" (Value.vDict [])
        else Value.vDict []) with
      | vDict fs =>
        simp only [hfs] at h
        rcases hb : buildCacheFactorsAux [] (dictUpdate em fs) with msg | cfs <;>
          simp only [hb] at h
        · simp at h
        simp only [Prod.mk.injEq, Except.ok.injEq] at h
        obtain ⟨h1, h2, h3⟩ := h
        subst h2
        exact ⟨cc, em, fs, rfl, rfl, rfl, hnum, hfs, hb, h1.symm, h3.symm⟩
      | vInt n => simp only [hfs] at h; simp at h
      | vFloat q => simp only [hfs] at h; simp at h
      | vBool b => simp only [hfs] at h; simp at h
      | vStr s => simp only [hfs] at h; simp at h
      | vList l => simp only [hfs] at h; simp at h
      | vNull => simp only [hfs] at h; simp at h
    · simp only [if_neg hnum] at h
      simp at h
  all_goals simp at h

theorem read_config_error_state (st st' : CacheState) (cfg : List (String × Value))
    (env : List (String × String)) (e : LoadErr)
    (h : read_config st cfg env = (st', Except.error e)) :
    st'.caches = st.caches ∧ st'.ensureSizing = st.ensureSizing := by
  simp only [read_config] at h
  cases hcc : dictGetD cfg "caches" (Value.vDict []) <;> simp only [hcc] at h
  case vDict cc =>
    by_cases hnum : isNumber (dictGetD cc "global_factor" st.defaultFactor) = true
    · simp only [if_pos hnum] at h
      rcases henv : envFactors env with e2 | em <;> simp only [henv] at h
      · have h1 : st' = _ := (congrArg Prod.fst h).symm
        subst h1
        exact ⟨rfl, rfl⟩
      cases hfs : (if truthy (dictGetD cc "per_cache_factors" (Value.vDict [])) then
          dictGetD cc "per_cache_factors" (Value.vDict [])
        else Value.vDict []) with
      | vDict fs =>
        simp only [hfs] at h
        rcases hb : buildCacheFactorsAux [] (dictUpdate em fs) with msg | cfs <;>
          simp only [hb] at h
        · have h1 : st' = _ := (congrArg Prod.fst h).symm
          subst h1
          exact ⟨rfl, rfl⟩
        · simp at h
      | vInt n =>
        simp only [hfs] at h
        have h1 : st' = _ := (congrArg Prod.fst h).symm
        subst h1
        exact ⟨rfl, rfl⟩
      | vFloat q =>
        simp only [hfs] at h
        have h1 : st' = _ := (congrArg Prod.fst h).symm
        subst h1
        exact ⟨rfl, rfl⟩
      | vBool b =>
        simp only [hfs] at h
        have h1 : st' = _ := (congrArg Prod.fst h).symm
        subst h1
        exact ⟨rfl, rfl⟩
      | vStr s =>
        simp only [hfs] at h
        have h1 : st' = _ := (congrArg Prod.fst h).symm
        subst h1
        exact ⟨rfl, rfl⟩
      | vList l =>
        simp only [hfs] at h
        have h1 : st' = _ := (congrArg Prod.fst h).symm
        subst h1
        exact ⟨rfl, rfl⟩
      | vNull =>
        simp only [hfs] at h
        have h1 : st' = _ := (congrArg Prod.fst h).symm
        subst h1
        exact ⟨rfl, rfl⟩
    · simp only [if_neg hnum] at h
      have h1 : st' = _ := (congrArg Prod.fst h).symm
      subst h1
      exact ⟨rfl, rfl⟩
  all_goals
    have h1 : st' = _ := (congrArg Prod.fst h).symm
    subst h1
    exact ⟨rfl, rfl⟩

theorem add_resizable_cache_state (st : CacheState) (n : String) :
    (add_resizable_cache st n).1 =
      { st with caches := registerName st.caches (lowerStr n) } := by
  unfold add_resizable_cache
  cases st.ensureSizing <;> rfl

theorem add_resizable_cache_calls_none (st : CacheState) (n : String)
    (h : st.ensureSizing = none) : (add_resizable_cache st n).2 = [] := by
  simp only [add_resizable_cache, h]

theorem add_resizable_cache_calls_some (st : CacheState) (n : String) (sc : SizingConfig)
    (h : st.ensureSizing = some sc) :
    (add_resizable_cache st n).2 =
      ensure_cache_sizes sc (registerName st.caches (lowerStr n)) := by
  simp only [add_resizable_cache, h]

theorem mem_registerName (xs : List String) (n : String) : n ∈ registerName xs n := by
  unfold registerName
  by_cases hc : xs.contains n = true
  · rw [if_pos hc]
    exact List.elem_iff.mp hc
  · rw [if_neg hc]
    exact List.mem_append_right _ (List.mem_singleton.mpr rfl)

theorem mem_registerName_of_mem (xs : List String) (n m : String) (h : m ∈ xs) :
    m ∈ registerName xs n := by
  unfold registerName
  by_cases hc : xs.contains n = true
  · rw [if_pos hc]
    exact h
  · rw [if_neg hc]
    exact List.mem_append_left _ h

theorem nodup_registerName (xs : List String) (n : String) (h : xs.Nodup) :
    (registerName xs n).Nodup := by
  unfold registerName
  by_cases hc : xs.contains n = true
  · rw [if_pos hc]
    exact h
  · rw [if_neg hc]
    rw [List.nodup_append]
    refine ⟨h, List.nodup_singleton n, ?_⟩
    intro a ha hb
    rw [List.mem_singleton] at hb
    subst hb
    exact hc (List.elem_iff.mpr ha)

theorem filter_map_calls (l : List String) (f : String → Value) (n : String)
    (hnd : l.Nodup) (hn : n ∈ l) :
    (l.map (fun m => (m, f m))).filter (fun c => c.1 == n) = [(n, f n)] := by
  induction l with
  | nil => cases hn
  | cons hd tl ih =>
    simp only [List.nodup_cons] at hnd
    simp only [List.map_cons, List.filter_cons]
    rcases List.mem_cons.mp hn with h1 | h1
    · subst h1
      have hfilter : (tl.map (fun m => (m, f m))).filter (fun c => c.1 == n) = [] := by
        rw [List.filter_eq_nil_iff]
        intro c hc
        rcases List.mem_map.mp hc with ⟨m, hm, hmc⟩
        rw [← hmc]
        simp only [beq_iff_eq]
        intro hcon
        exact hnd.1 (hcon ▸ hm)
      simp [hfilter]
    · have hne : hd ≠ n := fun hcon => hnd.1 (hcon ▸ h1)
      have hhd : ((hd, f hd).1 == n) = false := by
        simp only [beq_eq_false_iff_ne]
        exact hne
      rw [hhd]
      simp only [Bool.false_eq_true, if_false]
      exact ih hnd.2 h1

theorem read_config_error_default (st st' : CacheState) (cfg : List (String × Value))
    (env : List (String × String)) (cc : List (String × Value)) (e : LoadErr)
    (hcc : dictGetD cfg "caches" (Value.vDict []) = Value.vDict cc)
    (hnum : isNumber (dictGetD cc "global_factor" st.defaultFactor) = true)
    (h : read_config st cfg env = (st', Except.error e)) :
    st'.defaultFactor = dictGetD cc "global_factor" st.defaultFactor := by
  simp only [read_config, hcc, if_pos hnum] at h
  rcases henv : envFactors env with e2 | em <;> simp only [henv] at h
  · have h1 : st' = _ := (congrArg Prod.fst h).symm
    subst h1
    rfl
  cases hfs : (if truthy (dictGetD cc "per_cache_factors" (Value.vDict [])) then
      dictGetD cc "per_cache_factors" (Value.vDict [])
    else Value.vDict []) with
  | vDict fs =>
    simp only [hfs] at h
    rcases hb : buildCacheFactorsAux [] (dictUpdate em fs) with msg | cfs <;>
      simp only [hb] at h
    · have h1 : st' = _ := (congrArg Prod.fst h).symm
      subst h1
      rfl
    · simp at h
  | vInt n =>
    simp only [hfs] at h
    have h1 : st' = _ := (congrArg Prod.fst h).symm
    subst h1
    rfl
  | vFloat q =>
    simp only [hfs] at h
    have h1 : st' = _ := (congrArg Prod.fst h).symm
    subst h1
    rfl
  | vBool b =>
    simp only [hfs] at h
    have h1 : st' = _ := (congrArg Prod.fst h).symm
    subst h1
    rfl
  | vStr s =>
    simp only [hfs] at h
    have h1 : st' = _ := (congrArg Prod.fst h).symm
    subst h1
    rfl
  | vList l =>
    simp only [hfs] at h
    have h1 : st' = _ := (congrArg Prod.fst h).symm
    subst h1
    rfl
  | vNull =>
    simp only [hfs] at h
    have h1 : st' = _ := (congrArg Prod.fst h).symm
    subst h1
    rfl

/-- C1: after any successful load, every cache name in the registry has
received exactly one resize invocation, with the factor the merged
per-cache map assigns it, falling back to the resolved global factor; a
name with no merged override (from neither file nor environment) gets
exactly the global factor. -/
theorem c1_load_syncs_every_cache (st st' : CacheState) (cfg : List (String × Value))
    (env : List (String × String)) (sc : SizingConfig) (calls : List (String × Value))
    (hnd : st.caches.Nodup)
    (h : read_config st cfg env = (st', Except.ok (sc, calls))) :
    ∀ n ∈ st.caches,
      calls.filter (fun c => c.1 == n)
        = [(n, (assocGet sc.cache_factors n).getD sc.global_factor)] ∧
      (assocGet sc.cache_factors n = none →
        calls.filter (fun c => c.1 == n) = [(n, sc.global_factor)]) := by
  obtain ⟨cc, em, fs, hcc, henv, hgf, hnum, hfs, hb, hst, hcalls⟩ :=
    read_config_ok st st' cfg env sc calls h
  intro n hn
  have hc : calls.filter (fun c => c.1 == n)
      = [(n, (assocGet sc.cache_factors n).getD sc.global_factor)] := by
    rw [hcalls]
    exact filter_map_calls st.caches _ n hnd hn
  refine ⟨hc, fun hnone => ?_⟩
  rw [hc, hnone]
  rfl

/-- C1 witness: loading global_factor 2 with one registered cache named
users delivers it exactly one call with factor 2. -/
theorem c1_witness :
    [("users", Value.vInt 2)].filter (fun c => c.1 == "users")
        = [("users", (assocGet (SizingConfig.mk [] (Value.vInt 2)).cache_factors "users").getD
            (SizingConfig.mk [] (Value.vInt 2)).global_factor)] ∧
      (assocGet (SizingConfig.mk [] (Value.vInt 2)).cache_factors "users" = none →
        [("users", Value.vInt 2)].filter (fun c => c.1 == "users")
          = [("users", (SizingConfig.mk [] (Value.vInt 2)).global_factor)]) :=
  c1_load_syncs_every_cache ⟨["users"], Value.vFloat ((1 : ℚ) / 2), none⟩
    ⟨["users"], Value.vInt 2, some ⟨[], Value.vInt 2⟩⟩
    [("caches", Value.vDict [("global_factor", Value.vInt 2)])] []
    ⟨[], Value.vInt 2⟩ [("users", Value.vInt 2)]
    (List.nodup_singleton _) rfl "users" (List.mem_singleton.mpr rfl)

/-- C2: a file per_cache_factors entry, written under any letter case
(with at most one entry per normalized name, as in a parsed mapping),
with numeric value v, makes the resolved factor of the lowercased name
exactly v, overriding the global factor and every environment-variable
override. -/
theorem c2_file_override_wins (st st' : CacheState) (cfg : List (String × Value))
    (env : List (String × String)) (sc : SizingConfig) (calls : List (String × Value))
    (cc fs : List (String × Value)) (k : String) (v : Value)
    (hcc : dictGetD cfg "caches" (Value.vDict []) = Value.vDict cc)
    (hpc : dictGetD cc "per_cache_factors" (Value.vDict []) = Value.vDict fs)
    (hk : (k, v) ∈ fs)
    ( _hnumv : isNumber v = true)
    (hnd : (fs.map (fun kv => lowerStr kv.1)).Nodup)
    (h : read_config st cfg env = (st', Except.ok (sc, calls))) :
    assocGet sc.cache_factors (lowerStr k) = some v ∧
    (assocGet sc.cache_factors (lowerStr k)).getD sc.global_factor = v := by
  obtain ⟨cc2, em, fs2, hcc2, henv, hgf, hnum, hfs2, hb, hst, hcalls⟩ :=
    read_config_ok st st' cfg env sc calls h
  rw [hcc] at hcc2
  injection hcc2 with hcceq
  subst hcceq
  have htr : truthy (Value.vDict fs) = true := by
    cases fs with
    | nil => cases hk
    | cons a l => rfl
  rw [hpc, if_pos htr] at hfs2
  injection hfs2 with hfseq
  subst hfseq
  obtain ⟨hemprop, hemnd⟩ :=
    envFactorsAux_inv env [] em (fun kv hkv => absurd hkv (List.not_mem_nil _)) (by simp) henv
  have hcf : sc.cache_factors = foldLower [] (dictUpdate em fs) :=
    buildCacheFactorsAux_ok _ _ _ hb
  have hlast : lastVal (dictUpdate em fs) (lowerStr k) = some v :=
    lastVal_dictUpdate_mem fs em k v hemnd (fun kv hkv => Or.inl (hemprop kv hkv).1) hk hnd
  have hget : assocGet sc.cache_factors (lowerStr k) = some v := by
    rw [hcf]
    exact assocGet_foldLower_of_some _ _ _ _ hlast
  refine ⟨hget, ?_⟩
  rw [hget]
  rfl

/-- C2 witness: the file entry Get_Users = 2 wins over the environment
override SYNAPSE_CACHE_FACTOR_GET_USERS=5, resolving get_users to 2. -/
theorem c2_witness :
    assocGet (SizingConfig.mk [("get_users", Value.vInt 2)]
        (Value.vFloat ((1 : ℚ) / 2))).cache_factors (lowerStr "Get_Users")
      = some (Value.vInt 2) ∧
    (assocGet (SizingConfig.mk [("get_users", Value.vInt 2)]
        (Value.vFloat ((1 : ℚ) / 2))).cache_factors (lowerStr "Get_Users")).getD
        (SizingConfig.mk [("get_users", Value.vInt 2)] (Value.vFloat ((1 : ℚ) / 2))).global_factor
      = Value.vInt 2 :=
  c2_file_override_wins ⟨[], Value.vFloat ((1 : ℚ) / 2), none⟩
    ⟨[], Value.vFloat ((1 : ℚ) / 2), some ⟨[("get_users", Value.vInt 2)], Value.vFloat ((1 : ℚ) / 2)⟩⟩
    [("caches", Value.vDict [("per_cache_factors", Value.vDict [("Get_Users", Value.vInt 2)])])]
    [("SYNAPSE_CACHE_FACTOR_GET_USERS", "5")]
    ⟨[("get_users", Value.vInt 2)], Value.vFloat ((1 : ℚ) / 2)⟩ []
    [("per_cache_factors", Value.vDict [("Get_Users", Value.vInt 2)])]
    [("Get_Users", Value.vInt 2)] "Get_Users" (Value.vInt 2)
    rfl rfl (List.mem_singleton.mpr rfl) rfl (by simp) rfl

/-- C3: when a load fails by a validation error raised after the global
factor was resolved and found numeric, the process-wide default factor
keeps the just-resolved global factor instead of being restored, while
the registry and the installed reload closure are unchanged. -/
theorem c3_default_sticky_on_failed_load (st st' : CacheState) (cfg : List (String × Value))
    (env : List (String × String)) (cc : List (String × Value)) (e : LoadErr)
    (hcc : dictGetD cfg "caches" (Value.vDict []) = Value.vDict cc)
    (hnum : isNumber (dictGetD cc "global_factor" st.defaultFactor) = true)
    (h : read_config st cfg env = (st', Except.error e)) :
    st'.defaultFactor = dictGetD cc "global_factor" st.defaultFactor ∧
    st'.caches = st.caches ∧ st'.ensureSizing = st.ensureSizing := by
  obtain ⟨h1, h2⟩ := read_config_error_state st st' cfg env e h
  exact ⟨read_config_error_default st st' cfg env cc e hcc hnum h, h1, h2⟩

/-- C3 witness: global factor 2 resolves, then the per-cache entry a = x
fails the load; the default factor stays 2 and registry and reload
closure are untouched. -/
theorem c3_witness :
    (read_config ⟨["users"], Value.vFloat ((1 : ℚ) / 2), none⟩
        [("caches", Value.vDict [("global_factor", Value.vInt 2),
          ("per_cache_factors", Value.vDict [("a", Value.vStr "x")])])] []).1.defaultFactor
      = dictGetD [("global_factor", Value.vInt 2),
          ("per_cache_factors", Value.vDict [("a", Value.vStr "x")])] "global_factor"
          (CacheState.mk ["users"] (Value.vFloat ((1 : ℚ) / 2)) none).defaultFactor ∧
    (read_config ⟨["users"], Value.vFloat ((1 : ℚ) / 2), none⟩
        [("caches", Value.vDict [("global_factor", Value.vInt 2),
          ("per_cache_factors", Value.vDict [("a", Value.vStr "x")])])] []).1.caches
      = (CacheState.mk ["users"] (Value.vFloat ((1 : ℚ) / 2)) none).caches ∧
    (read_config ⟨["users"], Value.vFloat ((1 : ℚ) / 2), none⟩
        [("caches", Value.vDict [("global_factor", Value.vInt 2),
          ("per_cache_factors", Value.vDict [("a", Value.vStr "x")])])] []).1.ensureSizing
      = (CacheState.mk ["users"] (Value.vFloat ((1 : ℚ) / 2)) none).ensureSizing :=
  c3_default_sticky_on_failed_load ⟨["users"], Value.vFloat ((1 : ℚ) / 2), none⟩
    (read_config ⟨["users"], Value.vFloat ((1 : ℚ) / 2), none⟩
        [("caches", Value.vDict [("global_factor", Value.vInt 2),
          ("per_cache_factors", Value.vDict [("a", Value.vStr "x")])])] []).1
    [("caches", Value.vDict [("global_factor", Value.vInt 2),
      ("per_cache_factors", Value.vDict [("a", Value.vStr "x")])])] []
    [("global_factor", Value.vInt 2),
      ("per_cache_factors", Value.vDict [("a", Value.vStr "x")])]
    (LoadErr.configError "caches.per_cache_factors.a must be a number")
    rfl rfl rfl

/-- C4 counterexample: caches.per_cache_factors present as the empty
sequence, a non-mapping, does not make the load fail: the expression
coercing a falsy value to an empty dict runs before the mapping check,
so the load succeeds instead of raising the dictionary ConfigError. -/
theorem c4_counterexample :
    dictGetD [("per_cache_factors", Value.vList [])] "per_cache_factors" (Value.vDict [])
      = Value.vList [] ∧
    Value.isDict (Value.vList []) = false ∧
    (read_config ⟨[], Value.vFloat ((1 : ℚ) / 2), none⟩
        [("caches", Value.vDict [("per_cache_factors", Value.vList [])])] []).2
      = Except.ok (⟨[], Value.vFloat ((1 : ℚ) / 2)⟩, []) :=
  ⟨rfl, rfl, rfl⟩

/-- C4 amended: a present, truthy, non-mapping caches.per_cache_factors
(for example the nonempty sequence of 1, 2, 3) fails the load with the
ConfigError message caches.per_cache_factors must be a dictionary,
provided the earlier steps pass (numeric global factor, parseable
environment values); a falsy non-mapping such as the empty sequence is
coerced to an empty mapping instead and does not fail. -/
theorem c4_truthy_nonmapping_rejected (st : CacheState) (cfg : List (String × Value))
    (env : List (String × String)) (cc em : List (String × Value)) (v : Value)
    (hcc : dictGetD cfg "caches" (Value.vDict []) = Value.vDict cc)
    (hnum : isNumber (dictGetD cc "global_factor" st.defaultFactor) = true)
    (henv : envFactors env = Except.ok em)
    (hpc : dictGetD cc "per_cache_factors" (Value.vDict []) = v)
    (htr : truthy v = true)
    (hdict : Value.isDict v = false) :
    (read_config st cfg env).2
      = Except.error (LoadErr.configError "caches.per_cache_factors must be a dictionary") := by
  simp only [read_config, hcc, if_pos hnum, henv, hpc, htr, if_true]
  cases v with
  | vInt n => rfl
  | vFloat q => rfl
  | vBool b => rfl
  | vStr s => rfl
  | vList l => rfl
  | vDict fs => simp [Value.isDict] at hdict
  | vNull => rfl

/-- C4 witness for the amended claim: per_cache_factors as the sequence
1, 2, 3 fails with the dictionary ConfigError. -/
theorem c4_witness :
    (read_config ⟨[], Value.vFloat ((1 : ℚ) / 2), none⟩
        [("caches", Value.vDict [("per_cache_factors",
          Value.vList [Value.vInt 1, Value.vInt 2, Value.vInt 3])])] []).2
      = Except.error (LoadErr.configError "caches.per_cache_factors must be a dictionary") :=
  c4_truthy_nonmapping_rejected ⟨[], Value.vFloat ((1 : ℚ) / 2), none⟩
    [("caches", Value.vDict [("per_cache_factors",
      Value.vList [Value.vInt 1, Value.vInt 2, Value.vInt 3])])] []
    [("per_cache_factors", Value.vList [Value.vInt 1, Value.vInt 2, Value.vInt 3])] []
    (Value.vList [Value.vInt 1, Value.vInt 2, Value.vInt 3])
    rfl rfl rfl rfl rfl rfl

/-- C5: a registration performed while a reload closure is installed
invokes it synchronously before returning, so every cache then in the
registry, including the newly registered one, receives exactly one
resize call with the factor the already-resolved sizing data assigns
it, with no further load. -/
theorem c5_register_triggers_resync (st : CacheState) (sc : SizingConfig) (n : String)
    (hinst : st.ensureSizing = some sc) (hnd : st.caches.Nodup) :
    lowerStr n ∈ (add_resizable_cache st n).1.caches ∧
    ∀ m ∈ (add_resizable_cache st n).1.caches,
      (add_resizable_cache st n).2.filter (fun c => c.1 == m)
        = [(m, (assocGet sc.cache_factors m).getD sc.global_factor)] := by
  have hstate := add_resizable_cache_state st n
  have hcalls := add_resizable_cache_calls_some st n sc hinst
  constructor
  · rw [hstate]
    exact mem_registerName st.caches (lowerStr n)
  · intro m hm
    rw [hstate] at hm
    rw [hcalls]
    exact filter_map_calls (registerName st.caches (lowerStr n)) _ m
      (nodup_registerName st.caches (lowerStr n) hnd) hm

/-- C5 witness: registering Board on a state holding a resolved sizing
configuration with global factor 2 immediately delivers board exactly
one call with factor 2. -/
theorem c5_witness :
    (add_resizable_cache
        ⟨["users"], Value.vFloat ((1 : ℚ) / 2), some ⟨[], Value.vInt 2⟩⟩ "Board").2.filter
        (fun c => c.1 == "board")
      = [("board", (assocGet (SizingConfig.mk [] (Value.vInt 2)).cache_factors "board").getD
          (SizingConfig.mk [] (Value.vInt 2)).global_factor)] :=
  (c5_register_triggers_resync
      ⟨["users"], Value.vFloat ((1 : ℚ) / 2), some ⟨[], Value.vInt 2⟩⟩
      ⟨[], Value.vInt 2⟩ "Board" rfl (by simp)).2 "board" (by decide)

/-- C6: a cache registered while no reload closure is installed receives
no resize call, and keeps receiving none across further registrations
and failed loads, until a first successful load happens: any such event
sequence produces no callback invocation at all and installs nothing. -/
theorem c6_no_calls_before_first_load (st : CacheState) (es : List Event)
    (h0 : st.ensureSizing = none) (h : noSuccessfulLoad st es = true) :
    (run st es).2 = [] ∧ (run st es).1.ensureSizing = none := by
  induction es generalizing st with
  | nil => exact ⟨rfl, h0⟩
  | cons e tl ih =>
    simp only [noSuccessfulLoad, Bool.and_eq_true, Bool.not_eq_true'] at h
    obtain ⟨he, htl⟩ := h
    have hstep : (step st e).2 = [] ∧ (step st e).1.ensureSizing = none := by
      cases e with
      | register n =>
        refine ⟨add_resizable_cache_calls_none st n h0, ?_⟩
        simp only [step]
        rw [add_resizable_cache_state]
        exact h0
      | load cfg env =>
        rcases hr : read_config st cfg env with ⟨st2, r⟩
        rcases r with e2 | res
        · have hkeep := read_config_error_state st st2 cfg env e2 hr
          constructor
          · simp only [step, hr]
          · simp only [step, hr]
            rw [hkeep.2]
            exact h0
        · simp only [loadSucceeded, hr] at he
          cases he
    obtain ⟨hc0, hens⟩ := hstep
    obtain ⟨hrest, hensrest⟩ := ih (step st e).1 hens htl
    constructor
    · show (step st e).2 ++ (run (step st e).1 tl).2 = []
      rw [hc0, hrest]
      rfl
    · exact hensrest

/-- C6 witness: two registrations before any load produce no calls and
leave no reload closure installed. -/
theorem c6_witness :
    (run ⟨[], Value.vFloat ((1 : ℚ) / 2), none⟩
        [Event.register "Foo", Event.register "Bar"]).2 = [] ∧
    (run ⟨[], Value.vFloat ((1 : ℚ) / 2), none⟩
        [Event.register "Foo", Event.register "Bar"]).1.ensureSizing = none :=
  c6_no_calls_before_first_load ⟨[], Value.vFloat ((1 : ℚ) / 2), none⟩
    [Event.register "Foo", Event.register "Bar"] rfl rfl

/-- C7: a present, non-numeric caches.global_factor fails the load with
the ConfigError naming caches.global_factor, with the state returned
exactly as it was: default factor, registry and installed reload closure
untouched, and no callback invocation made. -/
theorem c7_bad_global_rejected (st : CacheState) (cfg : List (String × Value))
    (env : List (String × String)) (cc : List (String × Value)) (v : Value)
    (hcc : dictGetD cfg "caches" (Value.vDict []) = Value.vDict cc)
    (hv : assocGet cc "global_factor" = some v)
    (hnum : isNumber v = false) :
    read_config st cfg env
      = (st, Except.error (LoadErr.configError "caches.global_factor must be a number.")) := by
  have hgd : dictGetD cc "global_factor" st.defaultFactor = v := by
    simp only [dictGetD, hv]
  simp only [read_config, hcc, hgd, hnum, Bool.false_eq_true, if_false]

theorem mem_dictUpdate_left (d fs : List (String × Value)) (k : String) (v : Value)
    (hmem : (k, v) ∈ d) (hk : k ∉ fs.map Prod.fst) : (k, v) ∈ dictUpdate d fs := by
  induction fs generalizing d with
  | nil => exact hmem
  | cons hd tl ih =>
    obtain ⟨k0, v0⟩ := hd
    simp only [List.map_cons, List.mem_cons] at hk
    push_neg at hk
    simp only [dictUpdate]
    exact ih _ (mem_assocSet_of_ne d k0 k v0 v hmem hk.1) hk.2

theorem mem_dictUpdate_of_mem_right (em fs : List (String × Value)) (k : String) (v : Value)
    (hnd : (fs.map Prod.fst).Nodup) (h : (k, v) ∈ fs) : (k, v) ∈ dictUpdate em fs := by
  induction fs generalizing em with
  | nil => cases h
  | cons hd tl ih =>
    obtain ⟨k0, v0⟩ := hd
    simp only [List.map_cons, List.nodup_cons] at hnd
    simp only [dictUpdate]
    rcases List.mem_cons.mp h with h1 | h1
    · injection h1 with hk hv
      subst hk
      subst hv
      exact mem_dictUpdate_left _ tl k v (self_mem_assocSet em k v) hnd.1
    · exact ih _ hnd.2 h1

theorem mem_dictUpdate (d fs : List (String × Value)) (kv : String × Value)
    (h : kv ∈ dictUpdate d fs) : kv ∈ d ∨ kv ∈ fs := by
  induction fs generalizing d with
  | nil => exact Or.inl h
  | cons hd tl ih =>
    obtain ⟨k0, v0⟩ := hd
    simp only [dictUpdate] at h
    rcases ih _ h with h1 | h1
    · obtain ⟨kk, vv⟩ := kv
      rcases mem_assocSet d k0 kk v0 vv h1 with h2 | h2
      · exact Or.inl h2
      · exact Or.inr (h2 ▸ List.mem_cons_self _ _)
    · exact Or.inr (List.mem_cons_of_mem _ h1)

/-- C8: a per_cache_factors mapping holding a non-numeric value fails
the load with the ConfigError naming the offending cache by its
lowercased name, before any registry callback is invoked and without
replacing the installed reload closure; the registry is untouched. -/
theorem c8_bad_per_cache_rejected (st st' : CacheState) (cfg : List (String × Value))
    (env : List (String × String)) (cc fs em : List (String × Value))
    (r : Except LoadErr (SizingConfig × List (String × Value)))
    (hcc : dictGetD cfg "caches" (Value.vDict []) = Value.vDict cc)
    (hnum : isNumber (dictGetD cc "global_factor" st.defaultFactor) = true)
    (henv : envFactors env = Except.ok em)
    (hpc : dictGetD cc "per_cache_factors" (Value.vDict []) = Value.vDict fs)
    (hnd : (fs.map Prod.fst).Nodup)
    (hbad : ∃ kv ∈ fs, isNumber kv.2 = false)
    (h : read_config st cfg env = (st', r)) :
    ∃ k v, (k, v) ∈ fs ∧ isNumber v = false ∧
      r = Except.error
        (LoadErr.configError ("caches.per_cache_factors." ++ lowerStr k ++ " must be a number")) ∧
      st'.caches = st.caches ∧ st'.ensureSizing = st.ensureSizing := by
  have htr : truthy (Value.vDict fs) = true := by
    obtain ⟨kv, hkv, _⟩ := hbad
    cases fs with
    | nil => cases hkv
    | cons a l => rfl
  have hmerged : ∃ kv ∈ dictUpdate em fs, isNumber kv.2 = false := by
    obtain ⟨kv, hkv, hb2⟩ := hbad
    obtain ⟨kk, vv⟩ := kv
    exact ⟨(kk, vv), mem_dictUpdate_of_mem_right em fs kk vv hnd hkv, hb2⟩
  obtain ⟨k2, v2, hmem2, hbad2, herr⟩ := buildCacheFactorsAux_bad (dictUpdate em fs) [] hmerged
  obtain ⟨hemprop, _⟩ :=
    envFactorsAux_inv env [] em (fun kv hkv => absurd hkv (List.not_mem_nil _)) (by simp) henv
  have hfseq : (k2, v2) ∈ fs := by
    rcases mem_dictUpdate em fs (k2, v2) hmem2 with h1 | h1
    · obtain ⟨q, hq⟩ := (hemprop (k2, v2) h1).2
      have hq2 : v2 = Value.vFloat q := hq
      rw [hq2] at hbad2
      cases hbad2
    · exact h1
  have hcomp : read_config st cfg env
      = ({ st with defaultFactor := dictGetD cc "global_factor" st.defaultFactor },
        Except.error (LoadErr.configError
          ("caches.per_cache_factors." ++ lowerStr k2 ++ " must be a number"))) := by
    simp only [read_config, hcc, if_pos hnum, henv, hpc, htr, if_true, herr]
  rw [hcomp] at h
  have h1 : st' = _ := (congrArg Prod.fst h).symm
  subst h1
  exact ⟨k2, v2, hfseq, hbad2, (congrArg Prod.snd h).symm, rfl, rfl⟩

/-- C8 witness: the mapping entry Bad = x (a string) fails the load
with the ConfigError naming caches.per_cache_factors.bad, leaving the
registry and reload closure unchanged. -/
theorem c8_witness :
    ∃ k v, (k, v) ∈ [("Bad", Value.vStr "x")] ∧ isNumber v = false ∧
      (read_config ⟨["users"], Value.vFloat ((1 : ℚ) / 2), none⟩
          [("caches", Value.vDict [("per_cache_factors",
            Value.vDict [("Bad", Value.vStr "x")])])] []).2
        = Except.error (LoadErr.configError
            ("caches.per_cache_factors." ++ lowerStr k ++ " must be a number")) ∧
      (read_config ⟨["users"], Value.vFloat ((1 : ℚ) / 2), none⟩
          [("caches", Value.vDict [("per_cache_factors",
            Value.vDict [("Bad", Value.vStr "x")])])] []).1.caches
        = (CacheState.mk ["users"] (Value.vFloat ((1 : ℚ) / 2)) none).caches ∧
      (read_config ⟨["users"], Value.vFloat ((1 : ℚ) / 2), none⟩
          [("caches", Value.vDict [("per_cache_factors",
            Value.vDict [("Bad", Value.vStr "x")])])] []).1.ensureSizing
        = (CacheState.mk ["users"] (Value.vFloat ((1 : ℚ) / 2)) none).ensureSizing :=
  c8_bad_per_cache_rejected ⟨["users"], Value.vFloat ((1 : ℚ) / 2), none⟩
    (read_config ⟨["users"], Value.vFloat ((1 : ℚ) / 2), none⟩
        [("caches", Value.vDict [("per_cache_factors",
          Value.vDict [("Bad", Value.vStr "x")])])] []).1
    [("caches", Value.vDict [("per_cache_factors", Value.vDict [("Bad", Value.vStr "x")])])] []
    [("per_cache_factors", Value.vDict [("Bad", Value.vStr "x")])]
    [("Bad", Value.vStr "x")] []
    (read_config ⟨["users"], Value.vFloat ((1 : ℚ) / 2), none⟩
        [("caches", Value.vDict [("per_cache_factors",
          Value.vDict [("Bad", Value.vStr "x")])])] []).2
    rfl rfl rfl rfl (by simp)
    ⟨("Bad", Value.vStr "x"), List.mem_singleton.mpr rfl, rfl⟩ rfl

/-- C9: reset returns the empty registry, no installed reload closure
and a default factor freshly derived from the environment (0.5 when the
variable is absent); registering on the reset state produces no resize
call. -/
theorem c9_reset_clears_state (environ : List (String × String)) (q : ℚ)
    (h : envDefaultFactor environ = Except.ok q) :
    reset_state environ = Except.ok ⟨[], Value.vFloat q, none⟩ ∧
    (assocGet environ CACHE_PREFIX_NAME = none → q = 1 / 2) ∧
    ∀ n, add_resizable_cache ⟨[], Value.vFloat q, none⟩ n
        = (⟨[lowerStr n], Value.vFloat q, none⟩, []) := by
  refine ⟨?_, ?_, fun n => rfl⟩
  · simp only [reset_state, h]
    rfl
  · intro hnone
    simp only [envDefaultFactor, hnone] at h
    injection h with h2
    exact h2.symm

/-- C9 witness: reset in an empty environment gives the 0.5 default
state, and a registration on that state emits no call. -/
theorem c9_witness :
    reset_state [] = Except.ok ⟨[], Value.vFloat ((1 : ℚ) / 2), none⟩ ∧
    add_resizable_cache ⟨[], Value.vFloat ((1 : ℚ) / 2), none⟩ "Foo"
      = (⟨[lowerStr "Foo"], Value.vFloat ((1 : ℚ) / 2), none⟩, []) :=
  ⟨((c9_reset_clears_state [] (1 / 2) rfl).1),
    (c9_reset_clears_state [] (1 / 2) rfl).2.2 "Foo"⟩

/-- C10: a boolean passes the numeric validation both as global_factor
and as a per_cache_factors value (bool being a subclass of int in
Python), and registered caches receive the boolean itself as their
resize factor. -/
theorem c10_bool_factors (st : CacheState) (b : Bool)
    (hnum : isNumber st.defaultFactor = true) :
    (read_config st [("caches", Value.vDict [("global_factor", Value.vBool b)])] []).2
      = Except.ok (⟨[], Value.vBool b⟩, st.caches.map (fun n => (n, Value.vBool b))) ∧
    (read_config st [("caches", Value.vDict [("per_cache_factors",
        Value.vDict [("BoolCache", Value.vBool b)])])] []).2
      = Except.ok (⟨[("boolcache", Value.vBool b)], st.defaultFactor⟩,
          st.caches.map (fun n =>
            (n, if "boolcache" = n then Value.vBool b else st.defaultFactor))) := by
  constructor
  · have f1 : dictGetD [("caches", Value.vDict [("global_factor", Value.vBool b)])] "caches"
        (Value.vDict []) = Value.vDict [("global_factor", Value.vBool b)] := rfl
    have f2 : dictGetD [("global_factor", Value.vBool b)] "global_factor" st.defaultFactor
        = Value.vBool b := rfl
    have f3 : isNumber (Value.vBool b) = true := rfl
    have f4 : dictGetD [("global_factor", Value.vBool b)] "per_cache_factors" (Value.vDict [])
        = Value.vDict [] := rfl
    have f6 : buildCacheFactorsAux [] (dictUpdate [] []) = Except.ok [] := rfl
    have f7 : envFactors ([] : List (String × String)) = Except.ok [] := rfl
    simp only [read_config, f1, f2, if_pos f3, f7, f4, truthy, List.isEmpty_nil,
      Bool.not_true, Bool.false_eq_true, if_false, f6, ensure_cache_sizes, assocGet,
      Option.getD_none]
  · have e1 : dictGetD [("caches", Value.vDict [("per_cache_factors",
        Value.vDict [("BoolCache", Value.vBool b)])])] "caches" (Value.vDict [])
        = Value.vDict [("per_cache_factors", Value.vDict [("BoolCache", Value.vBool b)])] := rfl
    have e2 : dictGetD [("per_cache_factors", Value.vDict [("BoolCache", Value.vBool b)])]
        "global_factor" st.defaultFactor = st.defaultFactor := rfl
    have e4 : dictGetD [("per_cache_factors", Value.vDict [("BoolCache", Value.vBool b)])]
        "per_cache_factors" (Value.vDict [])
        = Value.vDict [("BoolCache", Value.vBool b)] := rfl
    have e5 : truthy (Value.vDict [("BoolCache", Value.vBool b)]) = true := rfl
    have e6 : buildCacheFactorsAux [] (dictUpdate [] [("BoolCache", Value.vBool b)])
        = Except.ok [("boolcache", Value.vBool b)] := rfl
    have e7 : envFactors ([] : List (String × String)) = Except.ok [] := rfl
    simp only [read_config, e1, e2, if_pos hnum, e7, e4, e5, if_true, e6,
      ensure_cache_sizes]
    refine congrArg Except.ok (congrArg _ ?_)
    apply List.map_congr_left
    intro a _
    by_cases hb2 : "boolcache" = a <;> simp [assocGet, hb2]

/-- C10 witness: global_factor true resolves and the registered cache
users receives the boolean true as its factor; a boolean per-cache entry
is accepted likewise. -/
theorem c10_witness :
    (read_config ⟨["users"], Value.vFloat ((1 : ℚ) / 2), none⟩
        [("caches", Value.vDict [("global_factor", Value.vBool true)])] []).2
      = Except.ok (⟨[], Value.vBool true⟩,
          ["users"].map (fun n => (n, Value.vBool true))) ∧
    (read_config ⟨["users"], Value.vFloat ((1 : ℚ) / 2), none⟩
        [("caches", Value.vDict [("per_cache_factors",
          Value.vDict [("BoolCache", Value.vBool true)])])] []).2
      = Except.ok (⟨[("boolcache", Value.vBool true)], Value.vFloat ((1 : ℚ) / 2)⟩,
          ["users"].map (fun n =>
            (n, if "boolcache" = n then Value.vBool true else Value.vFloat ((1 : ℚ) / 2)))) :=
  c10_bool_factors ⟨["users"], Value.vFloat ((1 : ℚ) / 2), none⟩ true rfl

/-- C7 witness: global_factor as the string fast is rejected with the
caches.global_factor ConfigError and the state is returned unchanged. -/
theorem c7_witness :
    read_config ⟨["users"], Value.vFloat ((1 : ℚ) / 2), none⟩
        [("caches", Value.vDict [("global_factor", Value.vStr "fast")])] []
      = (⟨["users"], Value.vFloat ((1 : ℚ) / 2), none⟩,
        Except.error (LoadErr.configError "caches.global_factor must be a number.")) :=
  c7_bad_global_rejected ⟨["users"], Value.vFloat ((1 : ℚ) / 2), none⟩
    [("caches", Value.vDict [("global_factor", Value.vStr "fast")])] []
    [("global_factor", Value.vStr "fast")] (Value.vStr "fast")
    rfl rfl rfl

example :
    (read_config ⟨[], Value.vFloat ((1 : ℚ) / 2), none⟩
      [("caches", Value.vDict [("per_cache_factors", Value.vDict [("Get_Users", Value.vInt 2)])])]
      [("SYNAPSE_CACHE_FACTOR_GET_USERS", "5")]).2
    = Except.ok (⟨[("get_users", Value.vInt 2)], Value.vFloat ((1 : ℚ) / 2)⟩, []) := rfl

example :
    (read_config ⟨[], Value.vFloat ((1 : ℚ) / 2), none⟩
      [("caches", Value.vDict [("per_cache_factors", Value.vList [])])] []).2
    = Except.ok (⟨[], Value.vFloat ((1 : ℚ) / 2)⟩, []) := rfl

example :
    (read_config ⟨[], Value.vFloat ((1 : ℚ) / 2), none⟩
      [("caches", Value.vDict [("global_factor", Value.vStr "fast")])] []).2
    = Except.error (LoadErr.configError "caches.global_factor must be a number.") := rfl
